import Mathlib

/-!
Verification of the SVC (SAGE) repository core against its specification.

The frontend file-chunking pipeline (`frontend/src/lib/fileChunker.ts`), the
upload client (`frontend/src/lib/api.ts`, `uploadAndGenerateEmbeddings`), and
the landing-page comparison gating (`frontend/src/app/page.tsx`) are embedded
shallowly: files are byte lists, network responses are an explicit
environment, and the client's protocol activity is the list of requests it
issues.  The backend comparison engine is not part of the available sources,
so its distance metrics and threshold counting are modelled from the
specification's formulas.
-/

/-- `CHUNK_SIZE_BYTES` from `fileChunker.ts`: 4 MiB. -/
def CHUNK_SIZE_BYTES : ℕ := 4 * 1024 * 1024

/-- `CHUNKING_THRESHOLD_BYTES` from `fileChunker.ts`: 4 MiB. -/
def CHUNKING_THRESHOLD_BYTES : ℕ := 4 * 1024 * 1024

/-- A browser `File`: a name plus its bytes (`file.size` is `data.length`). -/
structure SFile where
  name : String
  data : List ℕ
deriving DecidableEq

/-- `file.slice(s, e)`: the bytes in positions `[s, e)`. -/
def jsSlice (l : List ℕ) (s e : ℕ) : List ℕ := (l.drop s).take (e - s)

/-- `FileChunk` from `fileChunker.ts` (the `Blob` is its byte list). -/
structure FileChunk where
  chunk : List ℕ
  index : ℕ
  totalChunks : ℕ
  filename : String
deriving DecidableEq

/-- `ChunkedFile` from `fileChunker.ts`. -/
structure ChunkedFile where
  chunks : List FileChunk
  originalFile : SFile
  totalChunks : ℕ
deriving DecidableEq

/-- `shouldChunkFile` from `fileChunker.ts`: `file.size >= CHUNKING_THRESHOLD_BYTES`. -/
def shouldChunkFile (file : SFile) : Bool :=
  decide (CHUNKING_THRESHOLD_BYTES ≤ file.data.length)

/-- `chunkFile` from `fileChunker.ts`.  `Math.ceil(file.size / CHUNK_SIZE_BYTES)`
is the ceiling division `(L + C - 1) / C`; each chunk `i` is
`file.slice(i*C, min(i*C + C, file.size))`. -/
def chunkFile (file : SFile) : ChunkedFile :=
  let totalChunks := (file.data.length + CHUNK_SIZE_BYTES - 1) / CHUNK_SIZE_BYTES
  let chunks := (List.range totalChunks).map (fun i =>
    let start := i * CHUNK_SIZE_BYTES
    let stop := min (start + CHUNK_SIZE_BYTES) file.data.length
    { chunk := jsSlice file.data start stop
      index := i
      totalChunks := totalChunks
      filename := file.name : FileChunk })
  { chunks := chunks, originalFile := file, totalChunks := totalChunks }

lemma chunkFile_totalChunks (f : SFile) :
    (chunkFile f).totalChunks
      = (f.data.length + CHUNK_SIZE_BYTES - 1) / CHUNK_SIZE_BYTES := rfl

lemma chunkFile_chunks (f : SFile) :
    (chunkFile f).chunks
      = (List.range ((chunkFile f).totalChunks)).map (fun i =>
          { chunk := jsSlice f.data (i * CHUNK_SIZE_BYTES)
              (min (i * CHUNK_SIZE_BYTES + CHUNK_SIZE_BYTES) f.data.length)
            index := i
            totalChunks := (chunkFile f).totalChunks
            filename := f.name : FileChunk }) := rfl

lemma chunkFile_length (f : SFile) :
    (chunkFile f).chunks.length = (chunkFile f).totalChunks := by
  rw [chunkFile_chunks]
  simp

/-- Ceiling-division bounds: with `N = (L + C - 1) / C` (C = 4 MiB) we have
`L ≤ N * C`, and `(N - 1) * C < L` whenever `0 < L`. -/
lemma ceil_bounds (L : ℕ) :
    L ≤ ((L + CHUNK_SIZE_BYTES - 1) / CHUNK_SIZE_BYTES) * CHUNK_SIZE_BYTES ∧
    (0 < L →
      (((L + CHUNK_SIZE_BYTES - 1) / CHUNK_SIZE_BYTES) - 1) * CHUNK_SIZE_BYTES < L) := by
  unfold CHUNK_SIZE_BYTES
  omega

lemma chunkFile_getElem (f : SFile) (i : ℕ) (hi : i < (chunkFile f).chunks.length) :
    (chunkFile f).chunks[i]
      = { chunk := jsSlice f.data (i * CHUNK_SIZE_BYTES)
            (min (i * CHUNK_SIZE_BYTES + CHUNK_SIZE_BYTES) f.data.length)
          index := i
          totalChunks := (chunkFile f).totalChunks
          filename := f.name : FileChunk } := by
  simp only [chunkFile_chunks, List.getElem_map, List.getElem_range]

lemma chunkFile_chunk_len (f : SFile) (i : ℕ) (hi : i < (chunkFile f).chunks.length) :
    ((chunkFile f).chunks[i]).chunk.length
      = min ((chunkFile f).chunks.length * CHUNK_SIZE_BYTES) f.data.length
          - i * CHUNK_SIZE_BYTES
      ∨ ((chunkFile f).chunks[i]).chunk.length
      = min CHUNK_SIZE_BYTES (f.data.length - i * CHUNK_SIZE_BYTES) := by
  right
  rw [chunkFile_getElem f i hi]
  simp only [jsSlice, List.length_take, List.length_drop]
  omega

/-- The 10 MB file from the spec's chunking scenario. -/
def tenMBFile : SFile := ⟨"ten.mp4", List.replicate (10 * 1024 * 1024) 0⟩

/-- C1: for a file of byte length `L > 0`, `chunkFile` produces exactly
`ceil(L/C)` chunks (`C = 4 * 2^20`): the count is `(L + C - 1) / C` and is
characterised by `(N-1)*C < L ≤ N*C`; chunk `i` is the byte range
`[i*C, min((i+1)*C, L))`; every chunk except the last has size `C`; the last
has size `L % C`, or `C` when `C` divides `L` exactly. -/
theorem chunkFile_count_and_sizes (f : SFile) (hL : 0 < f.data.length) :
    (chunkFile f).chunks.length
        = (f.data.length + CHUNK_SIZE_BYTES - 1) / CHUNK_SIZE_BYTES
    ∧ f.data.length ≤ (chunkFile f).chunks.length * CHUNK_SIZE_BYTES
    ∧ ((chunkFile f).chunks.length - 1) * CHUNK_SIZE_BYTES < f.data.length
    ∧ (∀ i, ∀ hi : i < (chunkFile f).chunks.length,
        ((chunkFile f).chunks[i]).chunk
          = (f.data.drop (i * CHUNK_SIZE_BYTES)).take CHUNK_SIZE_BYTES)
    ∧ (∀ i, ∀ hi : i < (chunkFile f).chunks.length,
        i + 1 < (chunkFile f).chunks.length →
        ((chunkFile f).chunks[i]).chunk.length = CHUNK_SIZE_BYTES)
    ∧ (∀ i, ∀ hi : i < (chunkFile f).chunks.length,
        i + 1 = (chunkFile f).chunks.length →
        ((chunkFile f).chunks[i]).chunk.length
          = if f.data.length % CHUNK_SIZE_BYTES = 0 then CHUNK_SIZE_BYTES
            else f.data.length % CHUNK_SIZE_BYTES) := by
  have hN : (chunkFile f).chunks.length
      = (f.data.length + CHUNK_SIZE_BYTES - 1) / CHUNK_SIZE_BYTES :=
    (chunkFile_length f).trans (chunkFile_totalChunks f)
  have hb := ceil_bounds f.data.length
  have h1 : f.data.length ≤ (chunkFile f).chunks.length * CHUNK_SIZE_BYTES := by
    rw [hN]; exact hb.1
  have h2 : ((chunkFile f).chunks.length - 1) * CHUNK_SIZE_BYTES < f.data.length := by
    rw [hN]; exact hb.2 hL
  refine ⟨hN, h1, h2, ?_, ?_, ?_⟩
  · intro i hi
    rw [chunkFile_getElem f i hi]
    simp only [jsSlice]
    rw [List.take_eq_take]
    simp only [List.length_drop]
    unfold CHUNK_SIZE_BYTES
    omega
  · intro i hi hlt
    rw [chunkFile_getElem f i hi]
    simp only [jsSlice, List.length_take, List.length_drop]
    unfold CHUNK_SIZE_BYTES at *
    omega
  · intro i hi hlast
    rw [chunkFile_getElem f i hi]
    simp only [jsSlice, List.length_take, List.length_drop]
    unfold CHUNK_SIZE_BYTES at *
    split_ifs with hmod <;> omega

/-- C1 witness: the spec's scenario file of 10 MB yields 3 chunks whose last
chunk has size 2 MB (the first two having the full 4 MB size). -/
theorem chunkFile_count_and_sizes_witness :
    0 < tenMBFile.data.length
    ∧ (chunkFile tenMBFile).chunks.length = 3
    ∧ (∀ i, ∀ hi : i < (chunkFile tenMBFile).chunks.length,
        i + 1 < (chunkFile tenMBFile).chunks.length →
        ((chunkFile tenMBFile).chunks[i]).chunk.length = 4 * 1024 * 1024)
    ∧ (∀ i, ∀ hi : i < (chunkFile tenMBFile).chunks.length,
        i + 1 = (chunkFile tenMBFile).chunks.length →
        ((chunkFile tenMBFile).chunks[i]).chunk.length = 2 * 1024 * 1024) := by
  have hlen : tenMBFile.data.length = 10 * 1024 * 1024 := by
    simp only [tenMBFile, List.length_replicate]
  have h0 : 0 < tenMBFile.data.length := by
    rw [hlen]; norm_num
  have h := chunkFile_count_and_sizes tenMBFile h0
  refine ⟨h0, ?_, ?_, ?_⟩
  · rw [h.1, hlen]
    norm_num [CHUNK_SIZE_BYTES]
  · intro i hi hlt
    rw [h.2.2.2.2.1 i hi hlt]
    norm_num [CHUNK_SIZE_BYTES]
  · intro i hi hlast
    rw [h.2.2.2.2.2 i hi hlast, hlen]
    norm_num [CHUNK_SIZE_BYTES]

lemma chunkFile_map_chunk (f : SFile) :
    (chunkFile f).chunks.map (fun c => c.chunk)
      = (List.range ((chunkFile f).totalChunks)).map
          (fun i => (f.data.drop (i * CHUNK_SIZE_BYTES)).take CHUNK_SIZE_BYTES) := by
  rw [chunkFile_chunks, List.map_map]
  apply List.map_congr_left
  intro i _
  simp only [Function.comp_apply, jsSlice]
  rw [List.take_eq_take]
  simp only [List.length_drop]
  unfold CHUNK_SIZE_BYTES
  omega

lemma flatten_range_take (l : List ℕ) (n : ℕ) :
    ((List.range n).map
        (fun i => (l.drop (i * CHUNK_SIZE_BYTES)).take CHUNK_SIZE_BYTES)).flatten
      = l.take (n * CHUNK_SIZE_BYTES) := by
  induction n with
  | zero => simp
  | succ n ih =>
    rw [List.range_succ, List.map_append, List.flatten_append, ih]
    simp only [List.map_cons, List.map_nil, List.flatten_cons, List.flatten_nil,
      List.append_nil]
    have hmul : n * CHUNK_SIZE_BYTES + CHUNK_SIZE_BYTES = (n + 1) * CHUNK_SIZE_BYTES := by
      ring
    rw [← List.take_add, hmul]

lemma chunkFile_flatten (f : SFile) :
    (((chunkFile f).chunks.map (fun c => c.chunk)).flatten) = f.data := by
  rw [chunkFile_map_chunk, flatten_range_take]
  apply List.take_of_length_le
  rw [chunkFile_totalChunks]
  exact (ceil_bounds f.data.length).1

/-- Ordering of chunks by their `index` field. -/
def chunkIndexLt (a b : FileChunk) : Prop := a.index < b.index

instance : DecidableRel chunkIndexLt := fun a b => Nat.decLt a.index b.index

instance : IsAntisymm FileChunk chunkIndexLt :=
  ⟨fun _ _ h1 h2 => absurd h1 (Nat.lt_asymm h2)⟩

lemma chunkFile_sorted (f : SFile) :
    List.Sorted chunkIndexLt (chunkFile f).chunks := by
  rw [chunkFile_chunks]
  simp only [List.Sorted, List.pairwise_map, chunkIndexLt]
  exact List.pairwise_lt_range _

/-- C2: concatenating the chunks of `chunkFile` in ascending index order
yields exactly the original file's bytes; moreover any permutation of the
chunks that is sorted by chunk index reassembles to the original bytes. -/
theorem chunkFile_concat_original (f : SFile) :
    (((chunkFile f).chunks.map (fun c => c.chunk)).flatten) = f.data
    ∧ ∀ l : List FileChunk, l.Perm (chunkFile f).chunks → l.Sorted chunkIndexLt →
        ((l.map (fun c => c.chunk)).flatten) = f.data := by
  refine ⟨chunkFile_flatten f, ?_⟩
  intro l hp hs
  rw [List.eq_of_perm_of_sorted hp hs (chunkFile_sorted f)]
  exact chunkFile_flatten f

/-- C2 witness: a concrete file reassembled from a permuted-then-sorted
chunk list gives back the original bytes. -/
theorem chunkFile_concat_original_witness :
    ((((chunkFile ⟨"a.mp4", [7, 9]⟩).chunks.reverse).map (fun c => c.chunk)).flatten)
      = [7, 9] := by
  have hperm : ((chunkFile ⟨"a.mp4", [7, 9]⟩).chunks.reverse).Perm
      (chunkFile ⟨"a.mp4", [7, 9]⟩).chunks := List.reverse_perm _
  have hsort : ((chunkFile ⟨"a.mp4", [7, 9]⟩).chunks.reverse).Sorted chunkIndexLt := by
    decide
  exact (chunkFile_concat_original ⟨"a.mp4", [7, 9]⟩).2 _ hperm hsort

/-- C3 counterexample: on the empty file `chunkFile` returns an empty chunk
list — zero chunks, not a single empty chunk — and, being a total function,
it does not reject the input either. -/
theorem chunkFile_empty_cex :
    (chunkFile ⟨"empty.mp4", []⟩).chunks = []
    ∧ (chunkFile ⟨"empty.mp4", []⟩).chunks.length ≠ 1 := by
  decide

/-- C3 amended: `chunkFile` handles byte length `L = 0` by returning zero
chunks (`chunks = []`, `totalChunks = 0`); it neither produces a single empty
chunk nor rejects the input. -/
theorem chunkFile_empty (f : SFile) (h : f.data.length = 0) :
    (chunkFile f).chunks = [] ∧ (chunkFile f).totalChunks = 0 := by
  have h0 : (chunkFile f).totalChunks = 0 := by
    rw [chunkFile_totalChunks, h]
    norm_num [CHUNK_SIZE_BYTES]
  refine ⟨?_, h0⟩
  rw [chunkFile_chunks, h0]
  simp

/-- C3 witness for the amended claim, at the concrete empty file. -/
theorem chunkFile_empty_witness :
    (chunkFile ⟨"w.mp4", []⟩).chunks = [] ∧ (chunkFile ⟨"w.mp4", []⟩).totalChunks = 0 :=
  chunkFile_empty ⟨"w.mp4", []⟩ rfl

lemma chunkFile_map_index (f : SFile) :
    ((chunkFile f).chunks.map (fun c => c.index))
      = List.range ((chunkFile f).chunks.length) := by
  rw [chunkFile_length, chunkFile_chunks, List.map_map]
  conv_rhs => rw [← List.map_id (List.range ((chunkFile f).totalChunks))]
  apply List.map_congr_left
  intro i _
  rfl

lemma chunkFile_mem_totalChunks (f : SFile) :
    ∀ c ∈ (chunkFile f).chunks, c.totalChunks = (chunkFile f).chunks.length := by
  intro c hc
  rw [chunkFile_chunks] at hc
  simp only [List.mem_map, List.mem_range] at hc
  obtain ⟨i, _, rfl⟩ := hc
  exact (chunkFile_length f).symm

/-- C4: the chunk indices form exactly the contiguous range
`[0, totalChunks)` (no duplicates, no gaps), and every chunk's `totalChunks`
field equals the number of chunks produced. -/
theorem chunkFile_indices (f : SFile) :
    ((chunkFile f).chunks.map (fun c => c.index))
        = List.range ((chunkFile f).chunks.length)
    ∧ ∀ c ∈ (chunkFile f).chunks, c.totalChunks = (chunkFile f).chunks.length :=
  ⟨chunkFile_map_index f, chunkFile_mem_totalChunks f⟩

/-- C4 witness at a concrete file. -/
theorem chunkFile_indices_witness :
    ((chunkFile ⟨"b.mp4", [1, 2, 3]⟩).chunks.map (fun c => c.index))
      = List.range ((chunkFile ⟨"b.mp4", [1, 2, 3]⟩).chunks.length)
    ∧ ∀ c ∈ (chunkFile ⟨"b.mp4", [1, 2, 3]⟩).chunks,
        c.totalChunks = (chunkFile ⟨"b.mp4", [1, 2, 3]⟩).chunks.length :=
  chunkFile_indices ⟨"b.mp4", [1, 2, 3]⟩

/-- `buildChunkFormData` output from `fileChunker.ts`: the form fields
`session_id`, `chunk_index`, `total_chunks` and the chunk blob, whose part
name is `${filename}.part${index}`. -/
structure ChunkFormData where
  session_id : String
  chunk_index : ℕ
  total_chunks : ℕ
  chunk : List ℕ
  chunkName : String
deriving DecidableEq

/-- `buildChunkFormData` from `fileChunker.ts`. -/
def buildChunkFormData (sessionId : String) (c : FileChunk) (totalChunks : ℕ) :
    ChunkFormData :=
  { session_id := sessionId
    chunk_index := c.index
    total_chunks := totalChunks
    chunk := c.chunk
    chunkName := c.filename ++ ".part" ++ toString c.index }

/-- A protocol request issued by `uploadAndGenerateEmbeddings` in
`frontend/src/lib/api.ts`: `POST /upload/start`, `POST /upload/chunk`,
`POST /upload/finalize`, or the unchunked
`POST /upload-and-generate-embeddings`. -/
inductive Request where
  | start : Request
  | chunk : ChunkFormData → Request
  | finalize : String → String → ℕ → Request
  | single : SFile → Request
deriving DecidableEq

/-- `ApiError` from `frontend/src/lib/api.ts`: a message plus an optional
HTTP status. -/
structure ApiError where
  message : String
  status : Option ℕ
deriving DecidableEq

/-- The network environment seen by `uploadAndGenerateEmbeddings`: the
outcome of each `fetch` and the `session_id` returned by `/upload/start`.
Chunk outcomes are keyed by the chunk index carried in the request. -/
structure UploadEnv where
  startOk : Bool
  startStatus : ℕ
  session_id : String
  chunkOk : ℕ → Bool
  chunkStatus : ℕ
  finalizeOk : Bool
  finalizeStatus : ℕ
  singleOk : Bool
  singleStatus : ℕ

/-- The `for (const c of cf.chunks)` loop of `uploadAndGenerateEmbeddings`:
issues one `/upload/chunk` request per chunk in list order and stops at the
first non-ok response.  Returns the requests issued and whether all
succeeded. -/
def sendChunks (env : UploadEnv) (sid : String) (total : ℕ) :
    List FileChunk → List Request × Bool
  | [] => ([], true)
  | c :: cs =>
    let req := Request.chunk (buildChunkFormData sid c total)
    if env.chunkOk c.index then
      let rest := sendChunks env sid total cs
      (req :: rest.1, rest.2)
    else
      ([req], false)

/-- `uploadAndGenerateEmbeddings` from `frontend/src/lib/api.ts`, as the list
of protocol requests it issues together with its outcome (`.ok` for the
parsed response, `.error` for a thrown `ApiError`). -/
def uploadAndGenerateEmbeddings (env : UploadEnv) (file : SFile) :
    List Request × Except ApiError Unit :=
  if shouldChunkFile file then
    if env.startOk = false then
      ([Request.start],
       Except.error ⟨"Failed to start upload session", some env.startStatus⟩)
    else
      let cf := chunkFile file
      let sent := sendChunks env env.session_id cf.totalChunks cf.chunks
      if sent.2 = false then
        (Request.start :: sent.1,
         Except.error ⟨"Chunk upload failed", some env.chunkStatus⟩)
      else
        let trace := Request.start :: sent.1
          ++ [Request.finalize env.session_id file.name cf.totalChunks]
        if env.finalizeOk then (trace, Except.ok ())
        else (trace, Except.error ⟨"Finalize failed", some env.finalizeStatus⟩)
  else
    ([Request.single file],
     if env.singleOk then Except.ok ()
     else Except.error ⟨"Upload failed", some env.singleStatus⟩)

/-- Closed form for `sendChunks`: the issued requests are the chunks up to
and including the first failing one, and the success flag says whether no
chunk failed. -/
lemma sendChunks_eq (env : UploadEnv) (sid : String) (total : ℕ)
    (cs : List FileChunk) :
    sendChunks env sid total cs
      = (((cs.takeWhile fun c => env.chunkOk c.index)
            ++ (cs.dropWhile fun c => env.chunkOk c.index).take 1).map
            (fun c => Request.chunk (buildChunkFormData sid c total)),
         (cs.dropWhile fun c => env.chunkOk c.index).isEmpty) := by
  induction cs with
  | nil => rfl
  | cons c cs ih =>
    by_cases h : env.chunkOk c.index
    · simp only [sendChunks, h, if_true, ih, List.takeWhile_cons, List.dropWhile_cons, h,
        List.map_append, List.map_cons, List.cons_append]
    · simp only [sendChunks, h, if_false, List.takeWhile_cons, List.dropWhile_cons,
        Bool.false_eq_true]
      simp [h]

lemma sendChunks_all_ok (env : UploadEnv) (sid : String) (total : ℕ)
    (cs : List FileChunk) (h : ∀ c ∈ cs, env.chunkOk c.index = true) :
    sendChunks env sid total cs
      = (cs.map (fun c => Request.chunk (buildChunkFormData sid c total)), true) := by
  have hd : cs.dropWhile (fun c => env.chunkOk c.index) = [] :=
    List.dropWhile_eq_nil_iff.mpr (fun c hc => h c hc)
  have ht : cs.takeWhile (fun c => env.chunkOk c.index) = cs := by
    have happ := List.takeWhile_append_dropWhile
      (p := fun c => env.chunkOk c.index) (l := cs)
    rw [hd, List.append_nil] at happ
    exact happ
  rw [sendChunks_eq, ht, hd]
  simp

lemma dropWhile_not_empty_of_fail {p : FileChunk → Bool} {cs : List FileChunk}
    (h : ∃ c ∈ cs, p c = false) : (cs.dropWhile p).isEmpty = false := by
  obtain ⟨c, hc, hpc⟩ := h
  cases hd : cs.dropWhile p with
  | nil =>
    have := List.dropWhile_eq_nil_iff.mp hd c hc
    rw [this] at hpc
    cases hpc
  | cons a as => rfl

/-- C5: in the chunked path, with every response ok, the client issues one
Start request, then exactly one Chunk request per index `0 .. totalChunks-1`
in ascending order — each carrying `session_id`, `chunk_index`,
`total_chunks` and the chunk bytes — and finally one Finalize request with
`session_id`, the original filename, and a `total_chunks` equal to the number
of Chunk requests sent. -/
theorem upload_chunked_trace (env : UploadEnv) (file : SFile)
    (h1 : shouldChunkFile file = true) (h2 : env.startOk = true)
    (h3 : ∀ i, env.chunkOk i = true) (h4 : env.finalizeOk = true) :
    (uploadAndGenerateEmbeddings env file).1
        = Request.start
            :: ((chunkFile file).chunks.map (fun c =>
                  Request.chunk (buildChunkFormData env.session_id c
                    (chunkFile file).totalChunks)))
            ++ [Request.finalize env.session_id file.name (chunkFile file).totalChunks]
    ∧ ((chunkFile file).chunks.map (fun c =>
          (buildChunkFormData env.session_id c (chunkFile file).totalChunks).chunk_index))
        = List.range ((chunkFile file).chunks.length)
    ∧ (∀ c ∈ (chunkFile file).chunks,
        (buildChunkFormData env.session_id c (chunkFile file).totalChunks).session_id
            = env.session_id
        ∧ (buildChunkFormData env.session_id c (chunkFile file).totalChunks).total_chunks
            = (chunkFile file).chunks.length
        ∧ (buildChunkFormData env.session_id c (chunkFile file).totalChunks).chunk
            = c.chunk)
    ∧ (chunkFile file).totalChunks = (chunkFile file).chunks.length
    ∧ (uploadAndGenerateEmbeddings env file).2 = Except.ok () := by
  have hsend := sendChunks_all_ok env env.session_id (chunkFile file).totalChunks
    (chunkFile file).chunks (fun c _ => h3 c.index)
  refine ⟨?_, ?_, ?_, (chunkFile_length file).symm, ?_⟩
  · simp only [uploadAndGenerateEmbeddings, h1, if_true, h2, Bool.true_eq_false,
      if_false, hsend, ite_true, ite_false, h4]
  · have hcongr : ((chunkFile file).chunks.map (fun c =>
        (buildChunkFormData env.session_id c (chunkFile file).totalChunks).chunk_index))
        = ((chunkFile file).chunks.map (fun c => c.index)) :=
      List.map_congr_left (fun c _ => rfl)
    rw [hcongr]
    exact chunkFile_map_index file
  · intro c hc
    exact ⟨rfl, (chunkFile_length file).symm, rfl⟩
  · simp only [uploadAndGenerateEmbeddings, h1, if_true, h2, Bool.true_eq_false,
      if_false, hsend, ite_true, ite_false, h4]

/-- A 4 MiB file: the smallest size that takes the chunked path. -/
def bigFile : SFile := ⟨"big.mp4", List.replicate (4 * 1024 * 1024) 1⟩

/-- Environment in which every request succeeds. -/
def allOkEnv : UploadEnv :=
  ⟨true, 200, "sid-1", fun _ => true, 200, true, 200, true, 200⟩

/-- Environment in which the Start request fails with HTTP 500. -/
def startFailEnv : UploadEnv :=
  ⟨false, 500, "sid-2", fun _ => true, 200, true, 200, true, 200⟩

lemma shouldChunk_bigFile : shouldChunkFile bigFile = true := by
  unfold shouldChunkFile bigFile CHUNKING_THRESHOLD_BYTES
  simp only [List.length_replicate]
  rfl

/-- C5 witness: the all-ok chunked upload of a concrete 4 MiB file issues
Start, then the chunk requests, then Finalize, and succeeds. -/
theorem upload_chunked_trace_witness :
    (uploadAndGenerateEmbeddings allOkEnv bigFile).1
        = Request.start
            :: ((chunkFile bigFile).chunks.map (fun c =>
                  Request.chunk (buildChunkFormData allOkEnv.session_id c
                    (chunkFile bigFile).totalChunks)))
            ++ [Request.finalize allOkEnv.session_id bigFile.name
                  (chunkFile bigFile).totalChunks]
    ∧ (uploadAndGenerateEmbeddings allOkEnv bigFile).2 = Except.ok () := by
  have h := upload_chunked_trace allOkEnv bigFile shouldChunk_bigFile rfl
    (fun _ => rfl) rfl
  exact ⟨h.1, h.2.2.2.2⟩

/-- C6: in the chunked path, a non-ok Start, Chunk, or Finalize response
makes `uploadAndGenerateEmbeddings` throw an `ApiError` and issue no further
protocol request: success occurs exactly when every response is ok; a failed
Start stops the trace at `[start]`; a failed Chunk stops the trace right
after the first failing chunk request and Finalize is never sent; a failed
Finalize is reported as an error.  No failure is silently swallowed. -/
theorem upload_error_propagation (env : UploadEnv) (file : SFile)
    (hc : shouldChunkFile file = true) :
    ((uploadAndGenerateEmbeddings env file).2 = Except.ok ()
        ↔ env.startOk = true
          ∧ (∀ c ∈ (chunkFile file).chunks, env.chunkOk c.index = true)
          ∧ env.finalizeOk = true)
    ∧ (env.startOk = false →
        (uploadAndGenerateEmbeddings env file).1 = [Request.start]
        ∧ (uploadAndGenerateEmbeddings env file).2
            = Except.error ⟨"Failed to start upload session", some env.startStatus⟩)
    ∧ (env.startOk = true →
        (∃ c ∈ (chunkFile file).chunks, env.chunkOk c.index = false) →
        (uploadAndGenerateEmbeddings env file).1
            = Request.start
                :: ((((chunkFile file).chunks.takeWhile (fun c => env.chunkOk c.index))
                      ++ ((chunkFile file).chunks.dropWhile
                            (fun c => env.chunkOk c.index)).take 1).map
                    (fun c => Request.chunk (buildChunkFormData env.session_id c
                      (chunkFile file).totalChunks)))
        ∧ (uploadAndGenerateEmbeddings env file).2
            = Except.error ⟨"Chunk upload failed", some env.chunkStatus⟩
        ∧ ∀ s fn t, Request.finalize s fn t ∉ (uploadAndGenerateEmbeddings env file).1)
    ∧ (env.startOk = true →
        (∀ c ∈ (chunkFile file).chunks, env.chunkOk c.index = true) →
        env.finalizeOk = false →
        (uploadAndGenerateEmbeddings env file).2
            = Except.error ⟨"Finalize failed", some env.finalizeStatus⟩) := by
  refine ⟨?_, ?_, ?_, ?_⟩
  · constructor
    · intro hok
      cases hstart : env.startOk
      · exfalso
        simp only [uploadAndGenerateEmbeddings, hc, if_true, hstart, ite_true,
          ite_false] at hok
        cases hok
      · by_cases hall : ∀ c ∈ (chunkFile file).chunks, env.chunkOk c.index = true
        · refine ⟨rfl, hall, ?_⟩
          have hsend := sendChunks_all_ok env env.session_id
            (chunkFile file).totalChunks (chunkFile file).chunks hall
          cases hfin : env.finalizeOk
          · exfalso
            simp only [uploadAndGenerateEmbeddings, hc, if_true, hstart,
              Bool.true_eq_false, if_false, hsend, ite_true, ite_false, hfin] at hok
            cases hok
          · rfl
        · exfalso
          push_neg at hall
          obtain ⟨c, hcm, hcf⟩ := hall
          have hfail : ∃ c ∈ (chunkFile file).chunks, env.chunkOk c.index = false :=
            ⟨c, hcm, Bool.not_eq_true _ ▸ hcf⟩
          have hne := dropWhile_not_empty_of_fail hfail
          have hsend := sendChunks_eq env env.session_id
            (chunkFile file).totalChunks (chunkFile file).chunks
          rw [hne] at hsend
          simp only [uploadAndGenerateEmbeddings, hc, if_true, hstart,
            Bool.true_eq_false, if_false, hsend, ite_true, ite_false] at hok
          cases hok
    · rintro ⟨hstart, hall, hfin⟩
      have hsend := sendChunks_all_ok env env.session_id
        (chunkFile file).totalChunks (chunkFile file).chunks hall
      simp only [uploadAndGenerateEmbeddings, hc, if_true, hstart, Bool.true_eq_false,
        if_false, hsend, ite_true, ite_false, hfin]
  · intro hstart
    constructor <;>
      simp only [uploadAndGenerateEmbeddings, hc, if_true, hstart, ite_true, ite_false]
  · intro hstart hfail
    have hne := dropWhile_not_empty_of_fail hfail
    have hsend := sendChunks_eq env env.session_id
      (chunkFile file).totalChunks (chunkFile file).chunks
    rw [hne] at hsend
    have htrace : (uploadAndGenerateEmbeddings env file).1
        = Request.start
            :: ((((chunkFile file).chunks.takeWhile (fun c => env.chunkOk c.index))
                  ++ ((chunkFile file).chunks.dropWhile
                        (fun c => env.chunkOk c.index)).take 1).map
                (fun c => Request.chunk (buildChunkFormData env.session_id c
                  (chunkFile file).totalChunks))) := by
      simp only [uploadAndGenerateEmbeddings, hc, if_true, hstart, Bool.true_eq_false,
        if_false, hsend, ite_true, ite_false]
    refine ⟨htrace, ?_, ?_⟩
    · simp only [uploadAndGenerateEmbeddings, hc, if_true, hstart, Bool.true_eq_false,
        if_false, hsend, ite_true, ite_false]
    · intro s fn t hmem
      rw [htrace] at hmem
      rcases List.mem_cons.mp hmem with h | h
      · cases h
      · obtain ⟨c, _, heq⟩ := List.mem_map.mp h
        cases heq
  · intro hstart hall hfin
    have hsend := sendChunks_all_ok env env.session_id
      (chunkFile file).totalChunks (chunkFile file).chunks hall
    simp only [uploadAndGenerateEmbeddings, hc, if_true, hstart, Bool.true_eq_false,
      if_false, hsend, ite_true, ite_false, hfin, Bool.false_eq_true]

/-- C6 witness: for a concrete 4 MiB file and an environment whose Start
request fails with HTTP 500, the client issues only the Start request and
reports the `ApiError`. -/
theorem upload_error_propagation_witness :
    (uploadAndGenerateEmbeddings startFailEnv bigFile).1 = [Request.start]
    ∧ (uploadAndGenerateEmbeddings startFailEnv bigFile).2
        = Except.error ⟨"Failed to start upload session", some 500⟩ :=
  (upload_error_propagation startFailEnv bigFile shouldChunk_bigFile).2.1 rfl

/-- In the chunked path the trace always begins with the Start request and
continues only with Chunk or Finalize requests. -/
lemma chunked_trace_form (env : UploadEnv) (f : SFile)
    (hc : shouldChunkFile f = true) :
    ∃ reqs : List Request,
      (uploadAndGenerateEmbeddings env f).1 = Request.start :: reqs
      ∧ ∀ r ∈ reqs, (∃ fd, r = Request.chunk fd) ∨ ∃ s fn t, r = Request.finalize s fn t := by
  cases hstart : env.startOk
  · refine ⟨[], ?_, ?_⟩
    · simp only [uploadAndGenerateEmbeddings, hc, if_true, hstart, ite_true, ite_false]
    · intro r hr
      cases hr
  · have hsend := sendChunks_eq env env.session_id
      (chunkFile f).totalChunks (chunkFile f).chunks
    cases hne : ((chunkFile f).chunks.dropWhile fun c => env.chunkOk c.index).isEmpty
    · rw [hne] at hsend
      have htr : (uploadAndGenerateEmbeddings env f).1
          = Request.start
              :: ((((chunkFile f).chunks.takeWhile (fun c => env.chunkOk c.index))
                    ++ ((chunkFile f).chunks.dropWhile
                          (fun c => env.chunkOk c.index)).take 1).map
                  (fun c => Request.chunk (buildChunkFormData env.session_id c
                    (chunkFile f).totalChunks))) := by
        simp only [uploadAndGenerateEmbeddings, hc, if_true, hstart, Bool.true_eq_false,
          if_false, hsend, ite_true, ite_false]
      refine ⟨_, htr, ?_⟩
      intro r hr
      obtain ⟨c, _, rfl⟩ := List.mem_map.mp hr
      exact Or.inl ⟨_, rfl⟩
    · rw [hne] at hsend
      have htr : (uploadAndGenerateEmbeddings env f).1
          = Request.start
              :: (((((chunkFile f).chunks.takeWhile (fun c => env.chunkOk c.index))
                    ++ ((chunkFile f).chunks.dropWhile
                          (fun c => env.chunkOk c.index)).take 1).map
                  (fun c => Request.chunk (buildChunkFormData env.session_id c
                    (chunkFile f).totalChunks)))
                ++ [Request.finalize env.session_id f.name (chunkFile f).totalChunks]) := by
        cases hfin : env.finalizeOk
        · simp only [uploadAndGenerateEmbeddings, hc, if_true, hstart, Bool.true_eq_false,
            if_false, hsend, ite_true, ite_false, hfin, Bool.false_eq_true]
          rw [List.cons_append]
        · simp only [uploadAndGenerateEmbeddings, hc, if_true, hstart, Bool.true_eq_false,
            if_false, hsend, ite_true, ite_false, hfin]
          rw [List.cons_append]
      refine ⟨_, htr, ?_⟩
      intro r hr
      rcases List.mem_append.mp hr with h | h
      · obtain ⟨c, _, rfl⟩ := List.mem_map.mp h
        exact Or.inl ⟨_, rfl⟩
      · rcases List.mem_singleton.mp h with rfl
        exact Or.inr ⟨_, _, _, rfl⟩

/-- C9: `shouldChunkFile` returns true exactly when the file size is at
least `4 * 2^20` bytes; `uploadAndGenerateEmbeddings` takes the
single-request path exactly when `shouldChunkFile` is false; hence every
upload sent through the single-request path has size strictly below 4 MiB. -/
theorem shouldChunk_paths (env : UploadEnv) (f : SFile) :
    (shouldChunkFile f = true ↔ 4 * 1024 * 1024 ≤ f.data.length)
    ∧ ((uploadAndGenerateEmbeddings env f).1 = [Request.single f]
        ↔ shouldChunkFile f = false)
    ∧ (Request.single f ∈ (uploadAndGenerateEmbeddings env f).1 →
        f.data.length < 4 * 1024 * 1024) := by
  have hiff : shouldChunkFile f = true ↔ 4 * 1024 * 1024 ≤ f.data.length := by
    simp [shouldChunkFile, CHUNKING_THRESHOLD_BYTES]
  have hsingle : shouldChunkFile f = false →
      (uploadAndGenerateEmbeddings env f).1 = [Request.single f] := by
    intro hs
    simp only [uploadAndGenerateEmbeddings, hs, Bool.false_eq_true, if_false]
  have hlt : shouldChunkFile f = false → f.data.length < 4 * 1024 * 1024 := by
    intro hs
    by_contra hge
    push_neg at hge
    rw [hiff.mpr hge] at hs
    cases hs
  refine ⟨hiff, ⟨?_, hsingle⟩, ?_⟩
  · intro htr
    cases hs : shouldChunkFile f
    · rfl
    · exfalso
      obtain ⟨reqs, hform, _⟩ := chunked_trace_form env f hs
      rw [hform] at htr
      cases htr
  · intro hmem
    cases hs : shouldChunkFile f
    · exact hlt hs
    · exfalso
      obtain ⟨reqs, hform, hshape⟩ := chunked_trace_form env f hs
      rw [hform] at hmem
      rcases List.mem_cons.mp hmem with h | h
      · cases h
      · rcases hshape _ h with ⟨fd, hfd⟩ | ⟨s, fn, t, hft⟩
        · cases hfd
        · cases hft

/-- A small file below the chunking threshold. -/
def smallFile : SFile := ⟨"small.mp4", [0]⟩

/-- C9 witness: a concrete 1-byte file is sent through the single-request
path and its size is below 4 MiB. -/
theorem shouldChunk_paths_witness :
    (uploadAndGenerateEmbeddings allOkEnv smallFile).1 = [Request.single smallFile]
    ∧ smallFile.data.length < 4 * 1024 * 1024 := by
  have h := shouldChunk_paths allOkEnv smallFile
  have hs : shouldChunkFile smallFile = false := rfl
  refine ⟨h.2.1.mpr hs, ?_⟩
  refine h.2.2 ?_
  rw [h.2.1.mpr hs]
  exact List.mem_singleton.mpr rfl

/-- `system_metadata` of a video from the TwelveLabs API (`@/types`):
the fields the landing page reads. -/
structure SystemMetadata where
  filename : String
  duration : ℚ
deriving DecidableEq

/-- A `Video` as used by `frontend/src/app/page.tsx`. -/
structure Video where
  id : String
  system_metadata : SystemMetadata
deriving DecidableEq

/-- `canRunComparison` from `frontend/src/app/page.tsx`: false unless exactly
two videos are selected, then strict equality of their durations. -/
def canRunComparison (selectedVideos : List Video) : Bool :=
  if selectedVideos.length != 2 then false
  else
    match selectedVideos with
    | video1 :: video2 :: _ =>
        video1.system_metadata.duration == video2.system_metadata.duration
    | _ => false

/-- The `disabled` attribute of the Run Comparison button in
`frontend/src/app/page.tsx`: `disabled={!canRunComparison()}`. -/
def runComparisonDisabled (selectedVideos : List Video) : Bool :=
  !canRunComparison selectedVideos

/-- C10: `canRunComparison` returns true exactly when exactly two videos are
selected with equal durations; the Run Comparison control is disabled
whenever `canRunComparison` is false; hence two selected videos with unequal
durations cannot launch a comparison. -/
theorem canRunComparison_spec (selectedVideos : List Video) :
    (canRunComparison selectedVideos = true
        ↔ ∃ video1 video2, selectedVideos = [video1, video2]
            ∧ video1.system_metadata.duration = video2.system_metadata.duration)
    ∧ (canRunComparison selectedVideos = false → runComparisonDisabled selectedVideos = true)
    ∧ (∀ video1 video2, selectedVideos = [video1, video2] →
        video1.system_metadata.duration ≠ video2.system_metadata.duration →
        runComparisonDisabled selectedVideos = true) := by
  refine ⟨?_, ?_, ?_⟩
  · constructor
    · intro h
      match selectedVideos, h with
      | [], h => exact absurd h (by decide)
      | [v], h => simp [canRunComparison] at h
      | v1 :: v2 :: v3 :: rest, h => simp [canRunComparison] at h
      | [v1, v2], h =>
        refine ⟨v1, v2, rfl, ?_⟩
        simp only [canRunComparison, List.length_cons, List.length_nil] at h
        norm_num at h
        exact h
    · rintro ⟨v1, v2, rfl, heq⟩
      simp [canRunComparison, heq]
  · intro h
    simp [runComparisonDisabled, h]
  · intro v1 v2 hv hne
    subst hv
    simp [runComparisonDisabled, canRunComparison, hne]

/-- C10 witness: two concrete selected videos with durations 10 and 20
seconds leave the Run Comparison control disabled. -/
theorem canRunComparison_spec_witness :
    runComparisonDisabled
      [⟨"v1", ⟨"a.mp4", 10⟩⟩, ⟨"v2", ⟨"b.mp4", 20⟩⟩] = true :=
  (canRunComparison_spec [⟨"v1", ⟨"a.mp4", 10⟩⟩, ⟨"v2", ⟨"b.mp4", 20⟩⟩]).2.2
    ⟨"v1", ⟨"a.mp4", 10⟩⟩ ⟨"v2", ⟨"b.mp4", 20⟩⟩ rfl (by norm_num)

/-- Modelled from the spec: the backend comparison engine (`backend/app.py`,
`SAGE.py`) is not among the available sources; §4.5 names the two supported
distance metrics. -/
inductive DistanceMetric where
  | cosine : DistanceMetric
  | euclidean : DistanceMetric
deriving DecidableEq

/-- Modelled from the spec: `dot(a, b)`, the sum of componentwise products. -/
noncomputable def dotProduct (a b : List ℝ) : ℝ :=
  (List.zipWith (fun x y => x * y) a b).sum

/-- Modelled from the spec: `norm(a) = sqrt(dot(a, a))`. -/
noncomputable def vecNorm (a : List ℝ) : ℝ :=
  Real.sqrt (dotProduct a a)

open Classical in
/-- Modelled from the spec: cosine distance `1 - dot(a,b)/(norm(a)*norm(b))`,
with distance defined as 1.0 if either vector has zero norm. -/
noncomputable def cosineDistance (a b : List ℝ) : ℝ :=
  if vecNorm a = 0 ∨ vecNorm b = 0 then 1
  else 1 - dotProduct a b / (vecNorm a * vecNorm b)

/-- Modelled from the spec: euclidean distance `sqrt(sum((a_k - b_k)^2))`. -/
noncomputable def euclideanDistance (a b : List ℝ) : ℝ :=
  Real.sqrt ((List.zipWith (fun x y => (x - y) ^ 2) a b).sum)

/-- Modelled from the spec: the selected metric's distance function. -/
noncomputable def distance : DistanceMetric → List ℝ → List ℝ → ℝ
  | DistanceMetric.cosine => cosineDistance
  | DistanceMetric.euclidean => euclideanDistance

/-- Modelled from the spec: the per-segment distance `d_i` of the comparison
algorithm — the metric's distance on aligned vectors for `i < n` with
`n = min(len A, len B)`, and `+Infinity` for indices only the longer
sequence has. -/
noncomputable def segmentDistance (m : DistanceMetric) (A B : List (List ℝ))
    (i : ℕ) : EReal :=
  if i < min A.length B.length then
    ((distance m (A.getD i []) (B.getD i []) : ℝ) : EReal)
  else ⊤

open Classical in
/-- Modelled from the spec: `differingSegments` is the count of flagged
indices `i` in `[0, max(len A, len B))` with `d_i > threshold` (Infinity
always flags), counted pre-merge. -/
noncomputable def differingSegments (m : DistanceMetric) (A B : List (List ℝ))
    (threshold : ℝ) : ℕ :=
  ((Finset.range (max A.length B.length)).filter
    (fun i => (threshold : EReal) < segmentDistance m A B i)).card

/-- C7: on a fixed pair of embedding sequences and a fixed metric,
`differingSegments` is antitone in the threshold: `threshold1 < threshold2`
implies `differingSegments threshold1 ≥ differingSegments threshold2`. -/
theorem differingSegments_antitone (m : DistanceMetric) (A B : List (List ℝ))
    (t1 t2 : ℝ) (h : t1 < t2) :
    differingSegments m A B t2 ≤ differingSegments m A B t1 := by
  unfold differingSegments
  apply Finset.card_le_card
  intro i hi
  simp only [Finset.mem_filter] at hi ⊢
  refine ⟨hi.1, lt_trans ?_ hi.2⟩
  exact_mod_cast h

/-- C7 witness at concrete sequences and thresholds 0 < 1. -/
theorem differingSegments_antitone_witness :
    differingSegments DistanceMetric.cosine [[1]] [[1]] 1
      ≤ differingSegments DistanceMetric.cosine [[1]] [[1]] 0 :=
  differingSegments_antitone DistanceMetric.cosine [[1]] [[1]] 0 1 (by norm_num)

lemma dotProduct_comm (a b : List ℝ) : dotProduct a b = dotProduct b a :=
  congrArg List.sum (List.zipWith_comm_of_comm _ mul_comm a b)

lemma cosineDistance_comm (a b : List ℝ) : cosineDistance a b = cosineDistance b a := by
  unfold cosineDistance
  by_cases ha : vecNorm a = 0 <;> by_cases hb : vecNorm b = 0 <;>
    simp [ha, hb, dotProduct_comm a b, mul_comm]

lemma euclideanDistance_comm (a b : List ℝ) :
    euclideanDistance a b = euclideanDistance b a := by
  unfold euclideanDistance
  congr 1
  exact congrArg List.sum (List.zipWith_comm_of_comm _ (fun x y => by ring) a b)

lemma dotProduct_self_pos (v : List ℝ) (h : ∃ x ∈ v, x ≠ 0) :
    0 < dotProduct v v := by
  obtain ⟨x, hx, hx0⟩ := h
  unfold dotProduct
  rw [List.zipWith_same]
  have hnn : ∀ y ∈ v.map (fun a => a * a), 0 ≤ y := by
    intro y hy
    obtain ⟨z, _, rfl⟩ := List.mem_map.mp hy
    exact mul_self_nonneg z
  have hle : x * x ≤ (v.map (fun a => a * a)).sum :=
    List.single_le_sum hnn _ (List.mem_map_of_mem _ hx)
  have hpos : 0 < x * x := mul_self_pos.mpr hx0
  linarith

lemma cosineDistance_self (v : List ℝ) (h : ∃ x ∈ v, x ≠ 0) :
    cosineDistance v v = 0 := by
  have hpos := dotProduct_self_pos v h
  have hnorm : vecNorm v ≠ 0 := by
    unfold vecNorm
    exact ne_of_gt (Real.sqrt_pos.mpr hpos)
  unfold cosineDistance
  rw [if_neg (by push_neg; exact ⟨hnorm, hnorm⟩)]
  have hmul : vecNorm v * vecNorm v = dotProduct v v := by
    unfold vecNorm
    exact Real.mul_self_sqrt (le_of_lt hpos)
  rw [hmul, div_self (ne_of_gt hpos)]
  ring

lemma euclideanDistance_self (v : List ℝ) : euclideanDistance v v = 0 := by
  unfold euclideanDistance
  rw [List.zipWith_same]
  have hsum : (v.map (fun a => (a - a) ^ 2)).sum = 0 := by
    simp
  rw [hsum, Real.sqrt_zero]

/-- C8: both metrics are symmetric on vectors of equal dimension, and both
give distance 0 from a non-zero vector to itself. -/
theorem distance_symm_and_self_zero (m : DistanceMetric) (a b v : List ℝ)
    (hlen : a.length = b.length) :
    distance m a b = distance m b a
    ∧ ((∃ x ∈ v, x ≠ 0) → distance m v v = 0) := by
  constructor
  · cases m
    · exact cosineDistance_comm a b
    · exact euclideanDistance_comm a b
  · intro hv
    cases m
    · exact cosineDistance_self v hv
    · exact euclideanDistance_self v

/-- C8 witness at concrete vectors. -/
theorem distance_symm_and_self_zero_witness :
    (distance DistanceMetric.euclidean [1, 2] [3, 4]
        = distance DistanceMetric.euclidean [3, 4] [1, 2])
    ∧ ((∃ x ∈ [(1 : ℝ)], x ≠ 0) → distance DistanceMetric.euclidean [1] [1] = 0) :=
  distance_symm_and_self_zero DistanceMetric.euclidean [1, 2] [3, 4] [1] rfl
